import Mathlib

/-!
Verification of the circmark circuit-notation renderer.

The development shallowly embeds the repository's Rust sources:

* `circuit` — `src/circuit.rs`: the AST (`Element`, `SubCircuit`,
  `SubCircuitGroup`, `Twoport`, `TwoportLink`) and the nom-based
  recursive-descent parser (`element`, `sub_circuit`, `sub_circuit_series`,
  `sub_circuit_parallel`), together with `src/layout.rs` (`layout_size`)
  and `src/draw.rs` (the placement traversal `draw`).
* `twoport` — `src/twoport.rs`: the chain grammar used by `@twoport`
  document sections (`chain`, `chain_node`, `sub_chain`, `element`).

Modelling conventions:

* Rust `i32` is modelled as `Int`; Rust `/` truncates toward zero, so every
  division of the source is rendered with `Int.tdiv`.  Overflow is not
  modelled (the claims under study do not concern wrap-around).
* Rust `&str` slices are modelled as `List Char`; `format!` concatenation
  becomes list append.
* nom's `IResult` is modelled by `PResult`: `.ok rest val` for
  `Ok((rest, val))`, `.error` for `Err::Error` (backtrackable inside
  `alt`), `.failure` for `Err::Failure` (propagated through `alt`).
  Error payloads (positions, context labels) are not modelled.
* The mutually recursive nom parsers are total functions in Rust because
  every loop consumes input; here they take an explicit fuel argument
  (structural recursion), and the entry points supply fuel that is a
  linear function of the input length, amply sufficient for the grammar's
  recursion depth (at most a handful of non-consuming calls per consumed
  character).  Fuel exhaustion yields `.error`.
* The `&mut impl Drawer` sink of `src/draw.rs` is modelled by threading an
  accumulator `List Prim` through the traversal; each `drawer.xxx(...)`
  call of the source appends one `Prim` to the accumulator.
-/

set_option maxRecDepth 10000

/-- Result of running a nom parser: mirrors `IResult` of nom 7
(`Ok((rest, val))` / `Err::Error` / `Err::Failure`). -/
inductive PResult (α : Type) where
  | ok (rest : List Char) (val : α)
  | error
  | failure
deriving DecidableEq

/-- nom `map`. -/
def pmap {α β : Type} (p : List Char → PResult α) (f : α → β) :
    List Char → PResult β := fun s =>
  match p s with
  | .ok rest v => .ok rest (f v)
  | .error => .error
  | .failure => .failure

/-- nom `alt` for two alternatives: backtracks on `Err::Error`, propagates
`Err::Failure`. -/
def palt {α : Type} (p q : List Char → PResult α) : List Char → PResult α :=
  fun s =>
  match p s with
  | .error => q s
  | r => r

/-- nom `tag`. -/
def ptag (t : List Char) : List Char → PResult Unit := fun s =>
  if t.isPrefixOf s then .ok (s.drop t.length) () else .error

/-- nom `preceded(tag(t), p)`. -/
def ppreceded {α : Type} (t : List Char) (p : List Char → PResult α) :
    List Char → PResult α := fun s =>
  match ptag t s with
  | .ok rest _ => p rest
  | .error => .error
  | .failure => .failure

/-- nom `delimited(tag(l), p, tag(r))`. -/
def pdelimited {α : Type} (l : List Char) (p : List Char → PResult α)
    (r : List Char) : List Char → PResult α := fun s =>
  match ptag l s with
  | .error => .error
  | .failure => .failure
  | .ok s1 _ =>
    match p s1 with
    | .error => .error
    | .failure => .failure
    | .ok s2 v =>
      match ptag r s2 with
      | .ok s3 _ => .ok s3 v
      | .error => .error
      | .failure => .failure

/-- nom `separated_pair(p, tag(t), q)`. -/
def psepPair {α β : Type} (p : List Char → PResult α) (t : List Char)
    (q : List Char → PResult β) : List Char → PResult (α × β) := fun s =>
  match p s with
  | .error => .error
  | .failure => .failure
  | .ok s1 a =>
    match ptag t s1 with
    | .error => .error
    | .failure => .failure
    | .ok s2 _ =>
      match q s2 with
      | .ok s3 b => .ok s3 (a, b)
      | .error => .error
      | .failure => .failure

/-- nom `alphanumeric1`: the longest nonempty prefix of alphanumeric
characters. -/
def alphanumeric1 : List Char → PResult (List Char) := fun s =>
  match s.takeWhile Char.isAlphanum with
  | [] => .error
  | pre => .ok (s.dropWhile Char.isAlphanum) pre

namespace circuit

/-- `src/circuit.rs`: `enum Element` — a single circuit element carrying
its identifier (Rust `&str` modelled as `List Char`). -/
inductive Element where
  | R (id : List Char)
  | C (id : List Char)
  | V (id : List Char)
  | L (id : List Char)
  | Z (id : List Char)
  | I (id : List Char)
  | Open
deriving DecidableEq

mutual
/-- `src/circuit.rs`: `enum SubCircuit` (the `Box` indirection of
`Group(Box<SubCircuitGroup>)` is immaterial in Lean). -/
inductive SubCircuit where
  | Element (e : Element)
  | Group (g : SubCircuitGroup)
deriving DecidableEq

/-- `src/circuit.rs`: `enum SubCircuitGroup`. -/
inductive SubCircuitGroup where
  | Single (c : SubCircuit)
  | Series (l r : SubCircuit)
  | Parallel (l r : SubCircuit)
deriving DecidableEq
end

/-- `src/circuit.rs`: `impl Into<SubCircuit> for SubCircuitGroup` —
collapses a `Single` wrapper, boxes anything else into a `Group`. -/
def SubCircuitGroup.into : SubCircuitGroup → SubCircuit
  | .Single c => c
  | g => .Group g

/-- `src/circuit.rs`: `Element::label` (`format!("R{id}")` etc.). -/
def Element.label : Element → List Char
  | .R id => 'R' :: id
  | .C id => 'C' :: id
  | .V id => 'V' :: id
  | .L id => 'L' :: id
  | .Z id => 'Z' :: id
  | .I id => 'I' :: id
  | .Open => []

/-- `src/circuit.rs`: `twoport` link — `enum TwoportLink`. -/
inductive TwoportLink where
  | Series (c : SubCircuit)
  | Shunt (c : SubCircuit)
deriving DecidableEq

/-- `src/circuit.rs`: `struct Twoport`. -/
structure Twoport where
  links : List TwoportLink
deriving DecidableEq

/-- `src/circuit.rs`: `pub fn element` — `alt` over the six tag letters
and `"O"`. -/
def element : List Char → PResult Element :=
  palt (pmap (ppreceded ['R'] alphanumeric1) Element.R)
  (palt (pmap (ppreceded ['C'] alphanumeric1) Element.C)
  (palt (pmap (ppreceded ['V'] alphanumeric1) Element.V)
  (palt (pmap (ppreceded ['L'] alphanumeric1) Element.L)
  (palt (pmap (ppreceded ['Z'] alphanumeric1) Element.Z)
  (palt (pmap (ppreceded ['I'] alphanumeric1) Element.I)
  (pmap (ptag ['O']) (fun _ => Element.Open)))))))

mutual
/-- `src/circuit.rs`: `pub fn sub_circuit` —
`alt(delimited("(", sub_circuit_series, ")") -> into, element)`. -/
def sub_circuit : Nat → List Char → PResult SubCircuit
  | 0, _ => .error
  | fuel+1, s =>
    palt
      (pmap (pdelimited ['('] (fun s2 => sub_circuit_series fuel s2) [')'])
        SubCircuitGroup.into)
      (pmap element SubCircuit.Element) s

/-- `src/circuit.rs`: `pub fn sub_circuit_series` —
`alt(separated_pair(parallel, "+", series) -> Series(l.into, r.into),
parallel)`. -/
def sub_circuit_series : Nat → List Char → PResult SubCircuitGroup
  | 0, _ => .error
  | fuel+1, s =>
    palt
      (pmap (psepPair (fun s2 => sub_circuit_parallel fuel s2) ['+']
          (fun s2 => sub_circuit_series fuel s2))
        (fun lr => SubCircuitGroup.Series lr.1.into lr.2.into))
      (fun s2 => sub_circuit_parallel fuel s2) s

/-- `src/circuit.rs`: `pub fn sub_circuit_parallel` —
`alt(separated_pair(sub_circuit, "||", parallel) -> Parallel(l, r.into),
sub_circuit -> Single)`. -/
def sub_circuit_parallel : Nat → List Char → PResult SubCircuitGroup
  | 0, _ => .error
  | fuel+1, s =>
    palt
      (pmap (psepPair (fun s2 => sub_circuit fuel s2) ['|', '|']
          (fun s2 => sub_circuit_parallel fuel s2))
        (fun lr => SubCircuitGroup.Parallel lr.1 lr.2.into))
      (pmap (fun s2 => sub_circuit fuel s2) SubCircuitGroup.Single) s
end

/-- Entry point for the sub-circuit parser.  The Rust function needs no
fuel; `3 * length + 3` dominates the recursion depth of the grammar (at
most three non-consuming calls — series → parallel → sub_circuit — per
consumed character). -/
def parse_sub_circuit (s : List Char) : PResult SubCircuit :=
  sub_circuit (3 * s.length + 3) s

end circuit

/-- `src/layout.rs`: `struct Size(pub i32, pub i32)` — width, height. -/
structure Size where
  w : Int
  h : Int
deriving DecidableEq

/-- `src/layout.rs`: `struct Position(pub i32, pub i32)`. -/
structure Position where
  x : Int
  y : Int
deriving DecidableEq

/-- `src/layout.rs`: `pub const ELEMENT_SIZE: Size = Size(200, 60)`. -/
def ELEMENT_SIZE : Size := ⟨200, 60⟩

namespace circuit

/-- `src/layout.rs`: `impl Layout for circuit::Element` — every element
kind shares the fixed bounding box. -/
def Element.layout_size (_ : Element) : Size := ELEMENT_SIZE

mutual
/-- `src/layout.rs`: `impl Layout for circuit::SubCircuit`. -/
def SubCircuit.layout_size : SubCircuit → Size
  | .Element e => e.layout_size
  | .Group g => g.layout_size

/-- `src/layout.rs`: `impl Layout for circuit::SubCircuitGroup`. -/
def SubCircuitGroup.layout_size : SubCircuitGroup → Size
  | .Single c => c.layout_size
  | .Series l r =>
    ⟨l.layout_size.w + r.layout_size.w, max l.layout_size.h r.layout_size.h⟩
  | .Parallel l r =>
    ⟨max l.layout_size.w r.layout_size.w, l.layout_size.h + r.layout_size.h⟩
end

/-- Modelled from the spec: `impl Layout for circuit::TwoportLink` is
called by `src/draw.rs` (line 132, `link.layout_size()`) but its
definition is not among the source files under `src/`.  Following the
spec (§4.3: a Shunt link is drawn rotated, "axes swapped because shunt
branches run vertically", with allocated size `(chain.height,
link.width)`; glossary: natural size is the bottom-up inferred size a
subtree occupies), a Series link occupies its subcircuit's natural size
and a Shunt link occupies it with the axes swapped. -/
def TwoportLink.layout_size : TwoportLink → Size
  | .Series c => c.layout_size
  | .Shunt c => ⟨c.layout_size.h, c.layout_size.w⟩

end circuit

/-- `src/draw.rs`: `struct Context { position, rotate }`. -/
structure Context where
  position : Position
  rotate : Bool
deriving DecidableEq

/-- `Context::default()` (all fields zero / false). -/
def Context.default : Context := ⟨⟨0, 0⟩, false⟩

/-- `src/draw.rs`: `Context::translate` — swaps the translation axes when
`rotate` is set. -/
def Context.translate (c : Context) (x y : Int) : Context :=
  { c with
    position :=
      if c.rotate then ⟨c.position.x + y, c.position.y + x⟩
      else ⟨c.position.x + x, c.position.y + y⟩ }

/-- `src/draw.rs`: `Context::rotate` (named `rotated` here because the
field of the same name occupies the Lean namespace slot). -/
def Context.rotated (c : Context) : Context :=
  { c with rotate := !c.rotate }

/-- `src/draw.rs`: the `Drawer` trait, reified as the type of emitted
primitive calls.  One constructor per trait method; there is no
constructor for impedance elements (the trait has no such method). -/
inductive Prim where
  | resistor (label : List Char) (position : Position) (size : Size) (rotate : Bool)
  | capacitor (label : List Char) (position : Position) (size : Size) (rotate : Bool)
  | inductor (label : List Char) (position : Position) (size : Size) (rotate : Bool)
  | voltage_source (label : List Char) (position : Position) (size : Size) (rotate : Bool)
  | current_source (label : List Char) (position : Position) (size : Size) (rotate : Bool)
  | openCircuit (label : List Char) (position : Position) (size : Size) (rotate : Bool)
  | wire (a : Position) (b : Position)
  | junction (position : Position)
deriving DecidableEq

namespace circuit

/-- `src/draw.rs`: `impl Draw for circuit::Element` — one primitive per
element kind; `Z` has no dedicated primitive and is emitted through
`drawer.resistor`, `Open` through `drawer.open`.  The `&mut impl Drawer`
sink is modelled by the accumulator `acc`. -/
def Element.draw (e : Element) (size : Size) (ctx : Context)
    (acc : List Prim) : List Prim :=
  match e with
  | .R _ => acc ++ [.resistor e.label ctx.position size ctx.rotate]
  | .C _ => acc ++ [.capacitor e.label ctx.position size ctx.rotate]
  | .L _ => acc ++ [.inductor e.label ctx.position size ctx.rotate]
  | .V _ => acc ++ [.voltage_source e.label ctx.position size ctx.rotate]
  | .Z _ => acc ++ [.resistor e.label ctx.position size ctx.rotate]
  | .I _ => acc ++ [.current_source e.label ctx.position size ctx.rotate]
  | .Open => acc ++ [.openCircuit e.label ctx.position size ctx.rotate]

/-- `src/draw.rs`, Series arm of `impl Draw for SubCircuitGroup`
(lines 64-70): the allocated sizes handed to the two children.
`left_size = Size(size.0 * left.w / (left.w + right.w), max h)` and
symmetrically for `right_size` (both truncating `i32` divisions). -/
def seriesChildSizes (left right : SubCircuit) (size : Size) : Size × Size :=
  let left_natural := left.layout_size
  let right_natural := right.layout_size
  let width_requested := left_natural.w + right_natural.w
  let height := max left_natural.h right_natural.h
  (⟨(size.w * left_natural.w).tdiv width_requested, height⟩,
   ⟨(size.w * right_natural.w).tdiv width_requested, height⟩)

/-- `src/draw.rs`, Parallel arm (lines 74-81): `end_wire_length = 20`;
`width = max(top.w, bottom.w) - 2 * end_wire_length`; heights are the
proportional truncating splits of `size.1`. -/
def parallelChildSizes (top bottom : SubCircuit) (size : Size) : Size × Size :=
  let top_natural := top.layout_size
  let bottom_natural := bottom.layout_size
  let height_requested := top_natural.h + bottom_natural.h
  let width := max top_natural.w bottom_natural.w - 2 * 20
  (⟨width, (size.h * top_natural.h).tdiv height_requested⟩,
   ⟨width, (size.h * bottom_natural.h).tdiv height_requested⟩)

mutual
/-- `src/draw.rs`: `impl Draw for circuit::SubCircuit`. -/
def SubCircuit.draw : SubCircuit → Size → Context → List Prim → List Prim
  | .Element e, size, ctx, acc => e.draw size ctx acc
  | .Group g, size, ctx, acc => g.draw size ctx acc

/-- `src/draw.rs`: `impl Draw for circuit::SubCircuitGroup` (lines
60-105).  All divisions are Rust `i32` divisions, i.e. `Int.tdiv`. -/
def SubCircuitGroup.draw : SubCircuitGroup → Size → Context → List Prim → List Prim
  | .Single c, size, ctx, acc => c.draw size ctx acc
  | .Series left right, size, ctx, acc =>
    let left_size := (seriesChildSizes left right size).1
    let right_size := (seriesChildSizes left right size).2
    let acc := left.draw left_size
      (ctx.translate ((-size.w).tdiv 2 + left_size.w.tdiv 2) 0) acc
    right.draw right_size
      (ctx.translate (size.w.tdiv 2 - right_size.w.tdiv 2) 0) acc
  | .Parallel top bottom, size, ctx, acc =>
    let end_wire_length : Int := 20
    let top_size := (parallelChildSizes top bottom size).1
    let bottom_size := (parallelChildSizes top bottom size).2
    let width := top_size.w
    let acc := top.draw top_size (ctx.translate 0 ((-top_size.h).tdiv 2)) acc
    let acc := bottom.draw bottom_size (ctx.translate 0 (bottom_size.h.tdiv 2)) acc
    let acc := acc ++
      [.wire (ctx.translate ((-width).tdiv 2) ((-top_size.h).tdiv 2)).position
             (ctx.translate ((-width).tdiv 2) (bottom_size.h.tdiv 2)).position]
    let acc := acc ++
      [.wire (ctx.translate (width.tdiv 2) ((-top_size.h).tdiv 2)).position
             (ctx.translate (width.tdiv 2) (bottom_size.h.tdiv 2)).position]
    let acc := acc ++ [.junction (ctx.translate ((-width).tdiv 2) 0).position]
    let acc := acc ++ [.junction (ctx.translate (width.tdiv 2) 0).position]
    let acc := acc ++
      [.wire (ctx.translate ((-width).tdiv 2 - end_wire_length) 0).position
             (ctx.translate ((-width).tdiv 2) 0).position]
    acc ++
      [.wire (ctx.translate (width.tdiv 2 + end_wire_length) 0).position
             (ctx.translate (width.tdiv 2) 0).position]
end

/-- `src/draw.rs`: the loop body of `impl Draw for circuit::Twoport`
(lines 125-167).  `i` is the `enumerate` index, `offset` the running
horizontal offset; `rest` plays the role of the peekable iterator's
remainder (`links.peek().is_some()` = `!rest.isEmpty`).  Wires and
junctions of the chain are emitted at absolute `Position`s, ignoring
`ctx`, exactly as in the source. -/
def Twoport.drawLinks (size : Size) (ctx : Context) :
    List TwoportLink → Nat → Int → List Prim → List Prim
  | [], _, _, acc => acc
  | link :: rest, i, offset0, acc =>
    let top_line := (-size.h).tdiv 2
    let bottom_line := size.h.tdiv 2
    let requested_size := link.layout_size
    let offset := offset0 + requested_size.w.tdiv 2
    let acc :=
      match link with
      | .Series c =>
        let acc := c.draw requested_size
          (ctx.translate offset ((-size.h).tdiv 2)) acc
        acc ++ [.wire ⟨offset - requested_size.w.tdiv 2, bottom_line⟩
                      ⟨offset + requested_size.w.tdiv 2, bottom_line⟩]
      | .Shunt c =>
        let left_exists : Bool := i != 0
        let right_exists : Bool := !rest.isEmpty
        let acc := if left_exists then
            acc ++ [.wire ⟨offset - requested_size.w.tdiv 2, top_line⟩ ⟨offset, top_line⟩,
                    .wire ⟨offset - requested_size.w.tdiv 2, bottom_line⟩ ⟨offset, bottom_line⟩]
          else acc
        let acc := if right_exists then
            acc ++ [.wire ⟨offset, top_line⟩ ⟨offset + requested_size.w.tdiv 2, top_line⟩,
                    .wire ⟨offset, bottom_line⟩ ⟨offset + requested_size.w.tdiv 2, bottom_line⟩]
          else acc
        let acc := if left_exists && right_exists then
            acc ++ [.junction ⟨offset, top_line⟩, .junction ⟨offset, bottom_line⟩]
          else acc
        c.draw ⟨size.h, requested_size.w⟩ ((ctx.translate offset 0).rotated) acc
    Twoport.drawLinks size ctx rest (i + 1) (offset + requested_size.w.tdiv 2) acc

/-- `src/draw.rs`: `impl Draw for circuit::Twoport` — starts the loop at
index 0 with `offset = -size.0 / 2`. -/
def Twoport.draw (t : Twoport) (size : Size) (ctx : Context)
    (acc : List Prim) : List Prim :=
  Twoport.drawLinks size ctx t.links 0 ((-size.w).tdiv 2) acc

end circuit

namespace twoport

mutual
/-- `src/twoport.rs`: `enum Element` of the chain grammar.  This element
enumeration has no impedance (`Z`) or current-source (`I`) variant; a
parenthesized sub-chain is the `Sub` variant. -/
inductive Element where
  | R (id : List Char)
  | C (id : List Char)
  | V (id : List Char)
  | L (id : List Char)
  | Open
  | Sub (c : Chain)

/-- `src/twoport.rs`: `enum ChainNode`. -/
inductive ChainNode where
  | Series (e : Element)
  | Shunt (e : Element)

/-- `src/twoport.rs`: `struct Chain(pub Vec<ChainNode>)`. -/
inductive Chain where
  | mk (nodes : List ChainNode)
end


mutual
/-- `src/twoport.rs`: `pub fn element` — note the branch list: `R`, `C`,
`V`, `L`, `"O"`, and a parenthesized sub-chain; there are no `Z`/`I`
branches. -/
def element : Nat → List Char → PResult Element
  | 0, _ => .error
  | fuel+1, s =>
    palt (pmap (ppreceded ['R'] alphanumeric1) Element.R)
    (palt (pmap (ppreceded ['C'] alphanumeric1) Element.C)
    (palt (pmap (ppreceded ['V'] alphanumeric1) Element.V)
    (palt (pmap (ppreceded ['L'] alphanumeric1) Element.L)
    (palt (pmap (ptag ['O']) (fun _ => Element.Open))
    (pmap (pdelimited ['('] (fun s2 => sub_chain fuel s2) [')'])
      Element.Sub))))) s

/-- `src/twoport.rs`: `fn series_chain_node` — `"-"` then an element. -/
def series_chain_node : Nat → List Char → PResult ChainNode
  | 0, _ => .error
  | fuel+1, s =>
    pmap (ppreceded ['-'] (fun s2 => element fuel s2)) ChainNode.Series s

/-- `src/twoport.rs`: `fn shunt_chain_node` — `"|"` then an element. -/
def shunt_chain_node : Nat → List Char → PResult ChainNode
  | 0, _ => .error
  | fuel+1, s =>
    pmap (ppreceded ['|'] (fun s2 => element fuel s2)) ChainNode.Shunt s

/-- `src/twoport.rs`: `fn sub_chain_node` — if `peek(shunt_chain_node)`
succeeds the parse is a hard `nom::Err::Failure` ("shunt within
sub-chains is not supported"); otherwise parse a series node. -/
def sub_chain_node : Nat → List Char → PResult ChainNode
  | 0, _ => .error
  | fuel+1, s =>
    match shunt_chain_node fuel s with
    | .ok _ _ => .failure
    | _ => series_chain_node fuel s

/-- `many1(sub_chain_node)`: nom's `many1` — the first failure to match
(an `Err::Error`) after at least one node ends the list, while an
`Err::Failure` aborts the whole parse. -/
def sub_chain_many : Nat → List Char → PResult (List ChainNode)
  | 0, _ => .error
  | fuel+1, s =>
    match sub_chain_node fuel s with
    | .error => .error
    | .failure => .failure
    | .ok rest v =>
      match sub_chain_many fuel rest with
      | .ok rest2 vs => .ok rest2 (v :: vs)
      | .error => .ok rest [v]
      | .failure => .failure

/-- `src/twoport.rs`: `fn sub_chain` — `many1(sub_chain_node)` wrapped
into a `Chain`. -/
def sub_chain : Nat → List Char → PResult Chain
  | 0, _ => .error
  | fuel+1, s => pmap (fun s2 => sub_chain_many fuel s2) Chain.mk s
end

/-- `src/twoport.rs`: `pub fn chain_node` —
`alt((series_chain_node, shunt_chain_node))`. -/
def chain_node (fuel : Nat) : List Char → PResult ChainNode :=
  palt (series_chain_node fuel) (shunt_chain_node fuel)

/-- `many1(chain_node)`, nom semantics as in `sub_chain_many`. -/
def chain_many : Nat → List Char → PResult (List ChainNode)
  | 0, _ => .error
  | fuel+1, s =>
    match chain_node fuel s with
    | .error => .error
    | .failure => .failure
    | .ok rest v =>
      match chain_many fuel rest with
      | .ok rest2 vs => .ok rest2 (v :: vs)
      | .error => .ok rest [v]
      | .failure => .failure

/-- `src/twoport.rs`: `pub fn chain` — `many1(chain_node)` wrapped into a
`Chain`.  This is the parser `src/document.rs` invokes for a `@twoport`
section body. -/
def chain (fuel : Nat) : List Char → PResult Chain :=
  pmap (chain_many fuel) Chain.mk

/-- Entry point for the chain parser; `5 * length + 5` fuel dominates the
grammar's recursion depth. -/
def parse_chain (s : List Char) : PResult Chain :=
  chain (5 * s.length + 5) s

end twoport

namespace circuit

mutual
/-- No `Single` wrapper occurs anywhere in a finalized sub-circuit. -/
def SubCircuit.noSingle : SubCircuit → Bool
  | .Element _ => true
  | .Group g => g.noSingle

/-- A group is `Single`-free: it is itself a `Series`/`Parallel` node and
its two children are recursively `Single`-free. -/
def SubCircuitGroup.noSingle : SubCircuitGroup → Bool
  | .Single _ => false
  | .Series l r => l.noSingle && r.noSingle
  | .Parallel l r => l.noSingle && r.noSingle
end

/-- The invariant carried by the intermediate `SubCircuitGroup` values of
the parser, before `into` collapses a `Single` wrapper: the (at most one)
top-level `Single` wraps a `Single`-free circuit. -/
def SubCircuitGroup.pendingOk : SubCircuitGroup → Bool
  | .Single c => c.noSingle
  | .Series l r => l.noSingle && r.noSingle
  | .Parallel l r => l.noSingle && r.noSingle

/-- The notation text denoting a given element: its tag letter followed
by the identifier, or `"O"` for the open circuit.  Used to quantify the
parser theorems over arbitrary operand inputs. -/
def elementText : Element → List Char
  | .R id => 'R' :: id
  | .C id => 'C' :: id
  | .V id => 'V' :: id
  | .L id => 'L' :: id
  | .Z id => 'Z' :: id
  | .I id => 'I' :: id
  | .Open => ['O']

/-- Well-formedness of an element as written in the grammar: the
identifier is nonempty and alphanumeric (`Open` carries none). -/
def ValidElement : Element → Prop
  | .R id => id ≠ [] ∧ ∀ c ∈ id, c.isAlphanum = true
  | .C id => id ≠ [] ∧ ∀ c ∈ id, c.isAlphanum = true
  | .V id => id ≠ [] ∧ ∀ c ∈ id, c.isAlphanum = true
  | .L id => id ≠ [] ∧ ∀ c ∈ id, c.isAlphanum = true
  | .Z id => id ≠ [] ∧ ∀ c ∈ id, c.isAlphanum = true
  | .I id => id ≠ [] ∧ ∀ c ∈ id, c.isAlphanum = true
  | .Open => True

end circuit

/-- Head-character test: `true` iff the input starts with an alphanumeric
character. -/
def headAlnum : List Char → Bool
  | [] => false
  | c :: _ => c.isAlphanum


/-! ## Helper lemmas about the placement traversal -/

namespace circuit

/-- The element drawing arm only appends to the sink. -/
theorem Element.element_draw_concat (e : Element) (size : Size) (ctx : Context)
    (a b : List Prim) :
    e.draw size ctx (a ++ b) = a ++ e.draw size ctx b := by
  cases e <;> simp [Element.draw]

mutual
/-- The sub-circuit drawing traversal only appends to the sink. -/
theorem SubCircuit.draw_concat (c : SubCircuit) (size : Size) (ctx : Context)
    (a b : List Prim) :
    c.draw size ctx (a ++ b) = a ++ c.draw size ctx b := by
  match c with
  | .Element e =>
    simpa [SubCircuit.draw] using e.element_draw_concat size ctx a b
  | .Group g =>
    simpa [SubCircuit.draw] using g.group_draw_concat size ctx a b

/-- The group drawing traversal only appends to the sink. -/
theorem SubCircuitGroup.group_draw_concat (g : SubCircuitGroup) (size : Size)
    (ctx : Context) (a b : List Prim) :
    g.draw size ctx (a ++ b) = a ++ g.draw size ctx b := by
  match g with
  | .Single c =>
    simpa [SubCircuitGroup.draw] using c.draw_concat size ctx a b
  | .Series l r =>
    simp only [SubCircuitGroup.draw]
    rw [l.draw_concat, r.draw_concat]
  | .Parallel t bo =>
    simp only [SubCircuitGroup.draw]
    rw [t.draw_concat, bo.draw_concat]
    simp [List.append_assoc]
end

/-- The twoport chain loop only appends to the sink. -/
theorem Twoport.drawLinks_concat (size : Size) (ctx : Context) :
    ∀ (links : List TwoportLink) (i : Nat) (off : Int) (a b : List Prim),
      Twoport.drawLinks size ctx links i off (a ++ b) =
        a ++ Twoport.drawLinks size ctx links i off b := by
  intro links
  induction links with
  | nil => intro i off a b; simp [Twoport.drawLinks]
  | cons link rest ih =>
    intro i off a b
    cases link with
    | Series c =>
      simp only [Twoport.drawLinks]
      rw [c.draw_concat, List.append_assoc a, ih]
    | Shunt c =>
      simp only [Twoport.drawLinks]
      by_cases hl : (i != 0) = true <;>
        by_cases hr : (!(rest.isEmpty)) = true <;>
          simp only [hl, hr, if_true, if_false, Bool.true_and, Bool.false_and,
            Bool.and_true, Bool.and_false, if_pos, if_neg, Bool.not_eq_true] <;>
        simp [hl, hr, List.append_assoc, c.draw_concat, ih]

/-- The twoport drawing traversal only appends to the sink. -/
theorem Twoport.twoport_draw_concat (t : Twoport) (size : Size) (ctx : Context)
    (a b : List Prim) :
    t.draw size ctx (a ++ b) = a ++ t.draw size ctx b := by
  simpa [Twoport.draw] using
    Twoport.drawLinks_concat size ctx t.links 0 ((-size.w).tdiv 2) a b

end circuit

/-! ## Claims -/

/-- C4.  Layout additivity: the natural size of `Series(A, B)` has width
`width(A) + width(B)` and height `max(height(A), height(B))`; the natural
size of `Parallel(A, B)` has width `max(width(A), width(B))` and height
`height(A) + height(B)`; every `Element` leaf has the fixed constant size
`ELEMENT_SIZE`. -/
theorem c4_layout_additivity :
    (∀ A B : circuit.SubCircuit,
      (circuit.SubCircuitGroup.Series A B).layout_size =
        ⟨A.layout_size.w + B.layout_size.w,
         max A.layout_size.h B.layout_size.h⟩) ∧
    (∀ A B : circuit.SubCircuit,
      (circuit.SubCircuitGroup.Parallel A B).layout_size =
        ⟨max A.layout_size.w B.layout_size.w,
         A.layout_size.h + B.layout_size.h⟩) ∧
    (∀ e : circuit.Element, e.layout_size = ELEMENT_SIZE) :=
  ⟨fun _ _ => rfl, fun _ _ => rfl, fun _ => rfl⟩

/-- C10.  The sink contract has no impedance primitive: an `Impedance`
element `Z id` is emitted through the `resistor` primitive with label
`"Z" ++ id`, and an `Open` element through the `open` primitive with an
empty label. -/
theorem c10_impedance_via_resistor :
    ∀ (id : List Char) (size : Size) (ctx : Context) (acc : List Prim),
      (circuit.Element.Z id).draw size ctx acc =
        acc ++ [Prim.resistor ('Z' :: id) ctx.position size ctx.rotate] ∧
      circuit.Element.Open.draw size ctx acc =
        acc ++ [Prim.openCircuit [] ctx.position size ctx.rotate] :=
  fun _ _ _ _ => ⟨rfl, rfl⟩

/-- C9.  Placement determinism: the drawing traversal is a pure function
of (AST, allocated size, context) that only appends to the sink — the
primitives it emits after any prior sink contents `acc` are exactly the
primitives it emits into an empty sink, so two invocations with identical
arguments emit the identical primitive sequence. -/
theorem c9_placement_deterministic :
    (∀ (t : circuit.Twoport) (size : Size) (ctx : Context) (acc : List Prim),
      t.draw size ctx acc = acc ++ t.draw size ctx []) ∧
    (∀ (c : circuit.SubCircuit) (size : Size) (ctx : Context) (acc : List Prim),
      c.draw size ctx acc = acc ++ c.draw size ctx []) := by
  constructor
  · intro t size ctx acc
    simpa using t.twoport_draw_concat size ctx acc []
  · intro c size ctx acc
    simpa using c.draw_concat size ctx acc []

/-! ## C1 — proportional allocation bounds -/

namespace circuit

mutual
/-- Natural sizes of sub-circuits are strictly positive in both
dimensions. -/
theorem SubCircuit.layout_pos (c : SubCircuit) :
    0 < c.layout_size.w ∧ 0 < c.layout_size.h := by
  match c with
  | .Element e =>
    simp [SubCircuit.layout_size, Element.layout_size, ELEMENT_SIZE]
  | .Group g =>
    simpa [SubCircuit.layout_size] using g.group_layout_pos

/-- Natural sizes of groups are strictly positive in both dimensions. -/
theorem SubCircuitGroup.group_layout_pos (g : SubCircuitGroup) :
    0 < g.layout_size.w ∧ 0 < g.layout_size.h := by
  match g with
  | .Single c => simpa [SubCircuitGroup.layout_size] using c.layout_pos
  | .Series l r =>
    have hl := l.layout_pos
    have hr := r.layout_pos
    simp only [SubCircuitGroup.layout_size]
    constructor
    · omega
    · exact lt_max_of_lt_left hl.2
  | .Parallel l r =>
    have hl := l.layout_pos
    have hr := r.layout_pos
    simp only [SubCircuitGroup.layout_size]
    constructor
    · exact lt_max_of_lt_left hl.1
    · omega
end

/-- The two truncating proportional shares of a nonnegative budget `a`
sum to `a` or to `a - 1`: each share loses strictly less than one unit to
rounding, and the two roundings together lose strictly less than two. -/
theorem tdiv_share_bounds (a x y : Int) (ha : 0 ≤ a) (hx : 0 < x)
    (hy : 0 < y) :
    a - 1 ≤ (a * x).tdiv (x + y) + (a * y).tdiv (x + y) ∧
      (a * x).tdiv (x + y) + (a * y).tdiv (x + y) ≤ a := by
  have hW : 0 < x + y := by omega
  have hx0 : 0 ≤ a * x := mul_nonneg ha (le_of_lt hx)
  have hy0 : 0 ≤ a * y := mul_nonneg ha (le_of_lt hy)
  rw [Int.tdiv_eq_ediv hx0 (by omega), Int.tdiv_eq_ediv hy0 (by omega)]
  have h1 := Int.ediv_add_emod (a * x) (x + y)
  have h2 := Int.ediv_add_emod (a * y) (x + y)
  have hr1 : 0 ≤ a * x % (x + y) := Int.emod_nonneg _ (by omega)
  have hr2 : 0 ≤ a * y % (x + y) := Int.emod_nonneg _ (by omega)
  have hr1' : a * x % (x + y) < x + y := Int.emod_lt_of_pos _ hW
  have hr2' : a * y % (x + y) < x + y := Int.emod_lt_of_pos _ hW
  set q1 := a * x / (x + y) with hq1
  set q2 := a * y / (x + y) with hq2
  have key : (x + y) * (q1 + q2) + a * x % (x + y) + a * y % (x + y) =
      a * (x + y) := by
    have hsum : (x + y) * q1 + a * x % (x + y) +
        ((x + y) * q2 + a * y % (x + y)) = a * x + a * y := by
      rw [h1, h2]
    ring_nf
    ring_nf at hsum
    linarith
  have hcm : (x + y) * a = a * (x + y) := mul_comm _ _
  have hle : (x + y) * (q1 + q2) ≤ (x + y) * a := by linarith
  have hupper : q1 + q2 ≤ a := le_of_mul_le_mul_left hle hW
  have hgt : (x + y) * (a - 2) < (x + y) * (q1 + q2) := by
    have e1 : (x + y) * (a - 2) = a * (x + y) - 2 * (x + y) := by ring
    linarith
  have hlower : a - 2 < q1 + q2 := lt_of_mul_lt_mul_left hgt (le_of_lt hW)
  omega

end circuit

/-- C1 (amended).  For `Series(left, right)` the placement pass allocates
each child `floor(size.w * natural_i / (natural_l + natural_r))` via the
truncating `i32` division; the right child does NOT receive the
remainder, so for a nonnegative allocated width the children's widths sum
to the parent's width or fall one short of it (the claim's exact-sum
formulation holds only when the divisions are exact).  Dually for
`Parallel` and heights. -/
theorem c1_allocation_bounds :
    ∀ (l r : circuit.SubCircuit) (size : Size),
      (0 ≤ size.w →
        size.w - 1 ≤ (circuit.seriesChildSizes l r size).1.w +
            (circuit.seriesChildSizes l r size).2.w ∧
          (circuit.seriesChildSizes l r size).1.w +
            (circuit.seriesChildSizes l r size).2.w ≤ size.w) ∧
      (0 ≤ size.h →
        size.h - 1 ≤ (circuit.parallelChildSizes l r size).1.h +
            (circuit.parallelChildSizes l r size).2.h ∧
          (circuit.parallelChildSizes l r size).1.h +
            (circuit.parallelChildSizes l r size).2.h ≤ size.h) := by
  intro l r size
  constructor
  · intro hw
    simpa [circuit.seriesChildSizes] using
      circuit.tdiv_share_bounds size.w l.layout_size.w r.layout_size.w hw
        l.layout_pos.1 r.layout_pos.1
  · intro hh
    simpa [circuit.parallelChildSizes] using
      circuit.tdiv_share_bounds size.h l.layout_size.h r.layout_size.h hh
        l.layout_pos.2 r.layout_pos.2

/-- C1 counterexample.  For `Series(R1, R2)` at allocated width 5 the
placement pass gives each child width `5 * 200 / 400 = 2`: the sum `4`
differs from the parent's width `5`, and the right child's width is not
the parent width minus the left child's width. -/
theorem c1_counterexample :
    ¬((circuit.seriesChildSizes (.Element (.R ['1'])) (.Element (.R ['2']))
          ⟨5, 60⟩).1.w +
        (circuit.seriesChildSizes (.Element (.R ['1'])) (.Element (.R ['2']))
          ⟨5, 60⟩).2.w = 5) ∧
    ¬((circuit.seriesChildSizes (.Element (.R ['1'])) (.Element (.R ['2']))
          ⟨5, 60⟩).2.w =
        5 - (circuit.seriesChildSizes (.Element (.R ['1']))
          (.Element (.R ['2'])) ⟨5, 60⟩).1.w) := by
  decide

/-- C1 witness: the bounds theorem applied to `Series(R1, R2)` at
allocated width 5. -/
theorem c1_allocation_bounds_witness :
    (5 : Int) - 1 ≤ (circuit.seriesChildSizes (.Element (.R ['1']))
        (.Element (.R ['2'])) ⟨5, 60⟩).1.w +
      (circuit.seriesChildSizes (.Element (.R ['1'])) (.Element (.R ['2']))
        ⟨5, 60⟩).2.w ∧
    (circuit.seriesChildSizes (.Element (.R ['1'])) (.Element (.R ['2']))
        ⟨5, 60⟩).1.w +
      (circuit.seriesChildSizes (.Element (.R ['1'])) (.Element (.R ['2']))
        ⟨5, 60⟩).2.w ≤ 5 :=
  (c1_allocation_bounds (.Element (.R ['1'])) (.Element (.R ['2']))
    ⟨5, 60⟩).1 (by decide)

namespace circuit

/-- Emissions appended after prior sink contents, sub-circuit form. -/
theorem SubCircuit.draw_acc (c : SubCircuit) (size : Size) (ctx : Context)
    (acc : List Prim) : c.draw size ctx acc = acc ++ c.draw size ctx [] := by
  simpa using c.draw_concat size ctx acc []

/-- Emissions appended after prior sink contents, chain-loop form. -/
theorem Twoport.drawLinks_acc (size : Size) (ctx : Context)
    (links : List TwoportLink) (i : Nat) (off : Int) (acc : List Prim) :
    Twoport.drawLinks size ctx links i off acc =
      acc ++ Twoport.drawLinks size ctx links i off [] := by
  simpa using Twoport.drawLinks_concat size ctx links i off acc []

end circuit

/-- C6 (amended).  A Series link's subcircuit is recursed into with the
link's NATURAL size (`c.layout_size`, keeping the natural height — not
the chain's allocated height `size.h`), at the running horizontal offset
on the top rail (`-size.h / 2`), and the bottom-rail wire spans exactly
that link's width, after which the loop continues past the link. -/
theorem c6_series_link_placement :
    ∀ (size : Size) (ctx : Context) (c : circuit.SubCircuit)
      (after : List circuit.TwoportLink) (i : Nat) (off : Int)
      (acc : List Prim),
      circuit.Twoport.drawLinks size ctx (.Series c :: after) i off acc =
        acc ++
          c.draw c.layout_size
            (ctx.translate (off + c.layout_size.w.tdiv 2)
              ((-size.h).tdiv 2)) [] ++
          [Prim.wire ⟨off, size.h.tdiv 2⟩
            ⟨off + c.layout_size.w.tdiv 2 + c.layout_size.w.tdiv 2,
              size.h.tdiv 2⟩] ++
          circuit.Twoport.drawLinks size ctx after (i + 1)
            (off + c.layout_size.w.tdiv 2 + c.layout_size.w.tdiv 2) [] := by
  intro size ctx c after i off acc
  simp only [circuit.Twoport.drawLinks, circuit.TwoportLink.layout_size]
  rw [c.draw_acc, circuit.Twoport.drawLinks_acc size ctx after]
  simp [List.append_assoc, add_sub_cancel_right]

/-- C6 counterexample.  For the one-link chain `-R1` drawn with allocated
size `(200, 100)`, the subcircuit is recursed into with size `(200, 60)`
— the link's natural size — whose height `60` differs from the chain's
allocated height `100`, refuting the claim that the subcircuit receives
the chain's full allocated height. -/
theorem c6_counterexample :
    circuit.Twoport.draw ⟨[.Series (.Element (.R ['1']))]⟩ ⟨200, 100⟩
        Context.default [] =
      [Prim.resistor ['R', '1'] ⟨0, -50⟩ ⟨200, 60⟩ false,
       Prim.wire ⟨-100, 50⟩ ⟨100, 50⟩] ∧
    ¬((60 : Int) = 100) := by
  constructor
  · decide
  · decide

/-- C8.  Shunt-link wiring conditionality: drawing a Shunt link at
enumerate index `i` with remaining links `after` emits the left rail
wires iff a previous link exists (`i ≠ 0`), the right rail wires iff a
next link exists (`after ≠ []`), and the two junction dots iff both
neighbours exist; then the rotated subcircuit and the rest of the loop
follow.  (`Twoport.draw` enters this loop at index 0, so `i` counts the
links before the current one.) -/
theorem c8_shunt_wiring_conditional :
    ∀ (size : Size) (ctx : Context) (c : circuit.SubCircuit)
      (after : List circuit.TwoportLink) (i : Nat) (off : Int)
      (acc : List Prim),
      circuit.Twoport.drawLinks size ctx (.Shunt c :: after) i off acc =
        acc ++
          (if i ≠ 0 then
            [Prim.wire ⟨off, (-size.h).tdiv 2⟩
              ⟨off + c.layout_size.h.tdiv 2, (-size.h).tdiv 2⟩,
             Prim.wire ⟨off, size.h.tdiv 2⟩
              ⟨off + c.layout_size.h.tdiv 2, size.h.tdiv 2⟩]
          else []) ++
          (if after ≠ [] then
            [Prim.wire ⟨off + c.layout_size.h.tdiv 2, (-size.h).tdiv 2⟩
              ⟨off + c.layout_size.h.tdiv 2 + c.layout_size.h.tdiv 2,
                (-size.h).tdiv 2⟩,
             Prim.wire ⟨off + c.layout_size.h.tdiv 2, size.h.tdiv 2⟩
              ⟨off + c.layout_size.h.tdiv 2 + c.layout_size.h.tdiv 2,
                size.h.tdiv 2⟩]
          else []) ++
          (if i ≠ 0 ∧ after ≠ [] then
            [Prim.junction ⟨off + c.layout_size.h.tdiv 2, (-size.h).tdiv 2⟩,
             Prim.junction ⟨off + c.layout_size.h.tdiv 2, size.h.tdiv 2⟩]
          else []) ++
          c.draw ⟨size.h, c.layout_size.h⟩
            ((ctx.translate (off + c.layout_size.h.tdiv 2) 0).rotated) [] ++
          circuit.Twoport.drawLinks size ctx after (i + 1)
            (off + c.layout_size.h.tdiv 2 + c.layout_size.h.tdiv 2) [] := by
  intro size ctx c after i off acc
  by_cases hi : i = 0 <;> by_cases ha : after = []
  · subst hi
    subst ha
    simp only [circuit.Twoport.drawLinks, circuit.TwoportLink.layout_size]
    rw [c.draw_acc]
    simp [circuit.Twoport.drawLinks, List.append_assoc, add_sub_cancel_right]
  · subst hi
    have hne : after.isEmpty = false := by
      cases after with
      | nil => exact absurd rfl ha
      | cons x xs => rfl
    simp only [circuit.Twoport.drawLinks, circuit.TwoportLink.layout_size]
    rw [c.draw_acc, circuit.Twoport.drawLinks_acc size ctx after]
    simp [hne, ha, List.append_assoc, add_sub_cancel_right]
  · subst ha
    have hb : (i != 0) = true := by simpa using hi
    simp only [circuit.Twoport.drawLinks, circuit.TwoportLink.layout_size]
    rw [c.draw_acc]
    simp [hb, hi, circuit.Twoport.drawLinks, List.append_assoc,
      add_sub_cancel_right]
  · have hb : (i != 0) = true := by simpa using hi
    have hne : after.isEmpty = false := by
      cases after with
      | nil => exact absurd rfl ha
      | cons x xs => rfl
    simp only [circuit.Twoport.drawLinks, circuit.TwoportLink.layout_size]
    rw [c.draw_acc, circuit.Twoport.drawLinks_acc size ctx after]
    simp [hb, hne, hi, ha, List.append_assoc, add_sub_cancel_right]

/-! ## Helper lemmas about the parsing combinators -/

/-- A `tag` whose first character matches the input's first character and
whose remainder is empty consumes that character. -/
theorem ptag_cons_self (c : Char) (l : List Char) :
    ptag [c] (c :: l) = .ok l () := by
  simp [ptag, List.isPrefixOf]

/-- A `tag` fails on an input starting with a different character. -/
theorem ptag_ne_head {c c' : Char} (h : ¬c = c') (t l : List Char) :
    ptag (c :: t) (c' :: l) = .error := by
  simp [ptag, List.isPrefixOf, h]

/-- A nonempty `tag` fails on empty input. -/
theorem ptag_nil (c : Char) (t : List Char) : ptag (c :: t) [] = .error := by
  simp [ptag, List.isPrefixOf]

/-- `takeWhile`/`dropWhile` split an alphanumeric identifier followed by a
non-alphanumeric remainder exactly at the boundary. -/
theorem alnum_split (id rest : List Char)
    (hid : ∀ c ∈ id, c.isAlphanum = true) (hrest : headAlnum rest = false) :
    (id ++ rest).takeWhile Char.isAlphanum = id ∧
      (id ++ rest).dropWhile Char.isAlphanum = rest := by
  induction id with
  | nil =>
    cases rest with
    | nil => simp
    | cons c cs =>
      have : c.isAlphanum = false := hrest
      simp [List.takeWhile, List.dropWhile, this]
  | cons a as ih =>
    have ha : a.isAlphanum = true := hid a (by simp)
    have has : ∀ c ∈ as, c.isAlphanum = true := fun c hc => hid c (by simp [hc])
    have := ih has
    simp [List.takeWhile, List.dropWhile, ha, this.1, this.2]

/-- `alphanumeric1` consumes exactly a nonempty alphanumeric identifier
when the remainder does not start alphanumerically. -/
theorem alphanumeric1_split (id rest : List Char) (hne : id ≠ [])
    (hid : ∀ c ∈ id, c.isAlphanum = true) (hrest : headAlnum rest = false) :
    alphanumeric1 (id ++ rest) = .ok rest id := by
  have h1 := (alnum_split id rest hid hrest).1
  have h2 := (alnum_split id rest hid hrest).2
  unfold alphanumeric1
  rw [h1, h2]
  cases id with
  | nil => exact absurd rfl hne
  | cons a as => rfl

/-- C5.  Shunt-within-shunt rejection: whenever a shunt-link token (`|`
followed by an element) lies ahead inside a sub-chain, `sub_chain_node`
returns a hard `Err::Failure` (which `alt`/`many1` propagate instead of
backtracking); in particular parsing the chain `"|(-C1|L1)"` fails with
that hard failure. -/
theorem c5_shunt_within_shunt_hard_failure :
    (∀ (fuel : Nat) (s rest : List Char) (n : twoport.ChainNode),
      twoport.shunt_chain_node fuel s = .ok rest n →
        twoport.sub_chain_node (fuel + 1) s = .failure) ∧
    twoport.parse_chain ['|', '(', '-', 'C', '1', '|', 'L', '1', ')'] =
      .failure := by
  constructor
  · intro fuel s rest n h
    simp [twoport.sub_chain_node, h]
  · rfl

/-- C5 witness: the hard-failure rule applied to the concrete sub-chain
input `"|R1"`. -/
theorem c5_shunt_within_shunt_hard_failure_witness :
    twoport.shunt_chain_node 10 ['|', 'R', '1'] =
      .ok [] (.Shunt (.R ['1'])) ∧
    twoport.sub_chain_node (10 + 1) ['|', 'R', '1'] = .failure :=
  ⟨rfl,
   c5_shunt_within_shunt_hard_failure.1 10 ['|', 'R', '1'] []
     (.Shunt (.R ['1'])) rfl⟩

/-- C7 counterexample.  The element parser used for `@twoport` sections
(`twoport::element`, invoked through `document::section` →
`twoport::chain`) rejects impedance and current-source elements: `"Z1"`
and `"Ino"` (accepted by the document grammar) produce a parse error
instead of an element. -/
theorem c7_counterexample :
    twoport.element 10 ['Z', '1'] = .error ∧
    twoport.element 10 ['I', 'n', 'o'] = .error := ⟨rfl, rfl⟩

/-- C7 (amended).  Under the element parser used for `@twoport` sections
(`twoport::element`), a tag letter in {R, C, V, L} followed by a nonempty
alphanumeric identifier parses to the corresponding variant carrying the
identifier verbatim, and `"O"` parses to the open-circuit element; inputs
led by `Z` or `I` are rejected by this parser.  The tag letters `Z` and
`I` of the document grammar are only handled by the sub-circuit element
parser `circuit::element`, which accepts all six letters. -/
theorem c7_element_grammar_coverage :
    (∀ (fuel : Nat) (id rest : List Char), id ≠ [] →
      (∀ c ∈ id, c.isAlphanum = true) → headAlnum rest = false →
      twoport.element (fuel + 1) ('R' :: (id ++ rest)) = .ok rest (.R id) ∧
      twoport.element (fuel + 1) ('C' :: (id ++ rest)) = .ok rest (.C id) ∧
      twoport.element (fuel + 1) ('V' :: (id ++ rest)) = .ok rest (.V id) ∧
      twoport.element (fuel + 1) ('L' :: (id ++ rest)) = .ok rest (.L id)) ∧
    (∀ (fuel : Nat) (rest : List Char),
      twoport.element (fuel + 1) ('O' :: rest) = .ok rest .Open) ∧
    (∀ (fuel : Nat) (s : List Char),
      twoport.element (fuel + 1) ('Z' :: s) = .error ∧
      twoport.element (fuel + 1) ('I' :: s) = .error) ∧
    (∀ (id rest : List Char), id ≠ [] →
      (∀ c ∈ id, c.isAlphanum = true) → headAlnum rest = false →
      circuit.element ('Z' :: (id ++ rest)) = .ok rest (.Z id) ∧
      circuit.element ('I' :: (id ++ rest)) = .ok rest (.I id)) := by
  refine ⟨fun fuel id rest hne hid hrest => ?_,
    fun fuel rest => ?_, fun fuel s => ?_,
    fun id rest hne hid hrest => ?_⟩
  · refine ⟨?_, ?_, ?_, ?_⟩
    · simp [twoport.element, palt, pmap, ppreceded, ptag_cons_self,
        alphanumeric1_split id rest hne hid hrest]
    · simp [twoport.element, palt, pmap, ppreceded, ptag_cons_self,
        ptag_ne_head (show ¬('R':Char) = 'C' by decide),
        alphanumeric1_split id rest hne hid hrest]
    · simp [twoport.element, palt, pmap, ppreceded, ptag_cons_self,
        ptag_ne_head (show ¬('R':Char) = 'V' by decide),
        ptag_ne_head (show ¬('C':Char) = 'V' by decide),
        alphanumeric1_split id rest hne hid hrest]
    · simp [twoport.element, palt, pmap, ppreceded, ptag_cons_self,
        ptag_ne_head (show ¬('R':Char) = 'L' by decide),
        ptag_ne_head (show ¬('C':Char) = 'L' by decide),
        ptag_ne_head (show ¬('V':Char) = 'L' by decide),
        alphanumeric1_split id rest hne hid hrest]
  · simp [twoport.element, palt, pmap, ppreceded, ptag_cons_self,
      ptag_ne_head (show ¬('R':Char) = 'O' by decide),
      ptag_ne_head (show ¬('C':Char) = 'O' by decide),
      ptag_ne_head (show ¬('V':Char) = 'O' by decide),
      ptag_ne_head (show ¬('L':Char) = 'O' by decide)]
  · constructor
    · simp [twoport.element, palt, pmap, ppreceded, pdelimited,
        ptag_ne_head (show ¬('R':Char) = 'Z' by decide),
        ptag_ne_head (show ¬('C':Char) = 'Z' by decide),
        ptag_ne_head (show ¬('V':Char) = 'Z' by decide),
        ptag_ne_head (show ¬('L':Char) = 'Z' by decide),
        ptag_ne_head (show ¬('O':Char) = 'Z' by decide),
        ptag_ne_head (show ¬('(':Char) = 'Z' by decide)]
    · simp [twoport.element, palt, pmap, ppreceded, pdelimited,
        ptag_ne_head (show ¬('R':Char) = 'I' by decide),
        ptag_ne_head (show ¬('C':Char) = 'I' by decide),
        ptag_ne_head (show ¬('V':Char) = 'I' by decide),
        ptag_ne_head (show ¬('L':Char) = 'I' by decide),
        ptag_ne_head (show ¬('O':Char) = 'I' by decide),
        ptag_ne_head (show ¬('(':Char) = 'I' by decide)]
  · constructor
    · simp [circuit.element, palt, pmap, ppreceded, ptag_cons_self,
        ptag_ne_head (show ¬('R':Char) = 'Z' by decide),
        ptag_ne_head (show ¬('C':Char) = 'Z' by decide),
        ptag_ne_head (show ¬('V':Char) = 'Z' by decide),
        ptag_ne_head (show ¬('L':Char) = 'Z' by decide),
        alphanumeric1_split id rest hne hid hrest]
    · simp [circuit.element, palt, pmap, ppreceded, ptag_cons_self,
        ptag_ne_head (show ¬('R':Char) = 'I' by decide),
        ptag_ne_head (show ¬('C':Char) = 'I' by decide),
        ptag_ne_head (show ¬('V':Char) = 'I' by decide),
        ptag_ne_head (show ¬('L':Char) = 'I' by decide),
        ptag_ne_head (show ¬('Z':Char) = 'I' by decide),
        alphanumeric1_split id rest hne hid hrest]

/-- C7 witness: the amended coverage theorem applied to the inputs
`"R1"` (twoport grammar) and `"Z1"` (sub-circuit grammar). -/
theorem c7_element_grammar_coverage_witness :
    twoport.element (9 + 1) ('R' :: (['1'] ++ [])) = .ok [] (.R ['1']) ∧
    circuit.element ('Z' :: (['1'] ++ [])) = .ok [] (.Z ['1']) :=
  ⟨(c7_element_grammar_coverage.1 9 ['1'] [] (by decide) (by decide)
      (by decide)).1,
   (c7_element_grammar_coverage.2.2.2 ['1'] [] (by decide) (by decide)
      (by decide)).1⟩


/-- Inverting a successful `palt`: one of the two alternatives succeeded
(the second only after the first backtracked). -/
theorem palt_eq_ok {α : Type} {p q : List Char → PResult α}
    {s rest : List Char} {v : α} (h : palt p q s = .ok rest v) :
    p s = .ok rest v ∨ q s = .ok rest v := by
  cases hp : p s with
  | ok r w =>
    simp only [palt, hp] at h
    exact Or.inl h
  | error =>
    simp only [palt, hp] at h
    exact Or.inr h
  | failure =>
    simp [palt, hp] at h


/-- Inverting a successful `pmap`. -/
theorem pmap_eq_ok {α β : Type} {p : List Char → PResult α} {f : α → β}
    {s rest : List Char} {b : β} (h : pmap p f s = .ok rest b) :
    ∃ a, p s = .ok rest a ∧ f a = b := by
  cases hp : p s with
  | ok r v =>
    simp only [pmap, hp, PResult.ok.injEq] at h
    obtain ⟨h1, h2⟩ := h
    subst h1
    exact ⟨v, rfl, h2⟩
  | error => simp [pmap, hp] at h
  | failure => simp [pmap, hp] at h


/-- Inverting a successful `pdelimited`. -/
theorem pdelimited_eq_ok {α : Type} {l r : List Char}
    {p : List Char → PResult α} {s rest : List Char} {v : α}
    (h : pdelimited l p r s = .ok rest v) :
    ∃ s1 s2, ptag l s = .ok s1 () ∧ p s1 = .ok s2 v ∧
      ptag r s2 = .ok rest () := by
  cases h1 : ptag l s with
  | ok s1 u =>
    cases u
    cases h2 : p s1 with
    | ok s2 w =>
      cases h3 : ptag r s2 with
      | ok s3 u2 =>
        cases u2
        simp only [pdelimited, h1, h2, h3, PResult.ok.injEq] at h
        obtain ⟨hr, hv⟩ := h
        subst hr
        subst hv
        exact ⟨s1, s2, rfl, h2, h3⟩
      | error => simp [pdelimited, h1, h2, h3] at h
      | failure => simp [pdelimited, h1, h2, h3] at h
    | error => simp [pdelimited, h1, h2] at h
    | failure => simp [pdelimited, h1, h2] at h
  | error => simp [pdelimited, h1] at h
  | failure => simp [pdelimited, h1] at h


/-- Inverting a successful `psepPair`. -/
theorem psepPair_eq_ok {α β : Type} {p : List Char → PResult α}
    {t : List Char} {q : List Char → PResult β} {s rest : List Char}
    {v : α × β} (h : psepPair p t q s = .ok rest v) :
    ∃ s1 s2 a b, p s = .ok s1 a ∧ ptag t s1 = .ok s2 () ∧
      q s2 = .ok rest b ∧ v = (a, b) := by
  cases h1 : p s with
  | ok s1 a =>
    cases h2 : ptag t s1 with
    | ok s2 u =>
      cases u
      cases h3 : q s2 with
      | ok s3 b =>
        simp only [psepPair, h1, h2, h3, PResult.ok.injEq] at h
        obtain ⟨hr, hv⟩ := h
        subst hr
        subst hv
        exact ⟨s1, s2, a, b, rfl, h2, h3, rfl⟩
      | error => simp [psepPair, h1, h2, h3] at h
      | failure => simp [psepPair, h1, h2, h3] at h
    | error => simp [psepPair, h1, h2] at h
    | failure => simp [psepPair, h1, h2] at h
  | error => simp [psepPair, h1] at h
  | failure => simp [psepPair, h1] at h

namespace circuit

/-- `into` turns a pending-ok group into a `Single`-free sub-circuit. -/
theorem SubCircuitGroup.into_noSingle (g : SubCircuitGroup)
    (h : g.pendingOk = true) : g.into.noSingle = true := by
  cases g with
  | Single c => simpa [SubCircuitGroup.into, SubCircuitGroup.pendingOk] using h
  | Series l r =>
    simpa [SubCircuitGroup.into, SubCircuitGroup.pendingOk,
      SubCircuit.noSingle, SubCircuitGroup.noSingle] using h
  | Parallel l r =>
    simpa [SubCircuitGroup.into, SubCircuitGroup.pendingOk,
      SubCircuit.noSingle, SubCircuitGroup.noSingle] using h

/-- Every successful parse of the sub-circuit grammar yields a
`Single`-free tree (intermediate group values are pending-ok). -/
theorem parse_noSingle (fuel : Nat) :
    (∀ s rest t, sub_circuit fuel s = .ok rest t → t.noSingle = true) ∧
    (∀ s rest g, sub_circuit_series fuel s = .ok rest g →
      g.pendingOk = true) ∧
    (∀ s rest g, sub_circuit_parallel fuel s = .ok rest g →
      g.pendingOk = true) := by
  induction fuel with
  | zero =>
    refine ⟨?_, ?_, ?_⟩ <;> intro s rest t h <;>
      simp [sub_circuit, sub_circuit_series, sub_circuit_parallel] at h
  | succ n ih =>
    obtain ⟨ih1, ih2, ih3⟩ := ih
    refine ⟨?_, ?_, ?_⟩
    · intro s rest t h
      simp only [sub_circuit] at h
      rcases palt_eq_ok h with hg | he
      · obtain ⟨g, hpd, hinto⟩ := pmap_eq_ok hg
        obtain ⟨s1, s2, _, hser, _⟩ := pdelimited_eq_ok hpd
        rw [← hinto]
        exact g.into_noSingle (ih2 s1 s2 g hser)
      · obtain ⟨e, _, hE⟩ := pmap_eq_ok he
        rw [← hE]
        simp [SubCircuit.noSingle]
    · intro s rest g h
      simp only [sub_circuit_series] at h
      rcases palt_eq_ok h with hp | hp
      · obtain ⟨lr, hsp, hf⟩ := pmap_eq_ok hp
        obtain ⟨s1, s2, l, r, hl, _, hr, hlr⟩ := psepPair_eq_ok hsp
        rw [← hf, hlr]
        simp only [SubCircuitGroup.pendingOk]
        rw [Bool.and_eq_true]
        exact ⟨SubCircuitGroup.into_noSingle l (ih3 s s1 l hl),
          SubCircuitGroup.into_noSingle r (ih2 s2 rest r hr)⟩
      · exact ih3 s rest g hp
    · intro s rest g h
      simp only [sub_circuit_parallel] at h
      rcases palt_eq_ok h with hp | hp
      · obtain ⟨lr, hsp, hf⟩ := pmap_eq_ok hp
        obtain ⟨s1, s2, l, r, hl, _, hr, hlr⟩ := psepPair_eq_ok hsp
        rw [← hf, hlr]
        simp only [SubCircuitGroup.pendingOk]
        rw [Bool.and_eq_true]
        exact ⟨ih1 s s1 l hl,
          SubCircuitGroup.into_noSingle r (ih3 s2 rest r hr)⟩
      · obtain ⟨c, hc, hS⟩ := pmap_eq_ok hp
        rw [← hS]
        simpa [SubCircuitGroup.pendingOk] using ih1 s rest c hc

end circuit

/-- C3.  Normalization invariant: every tree produced by a successful run
of the sub-circuit parser is free of `SubCircuitGroup::Single` wrappers
(each group node is a two-child `Series`/`Parallel`), and parsing the
parenthesized single operand `"(R1)"` yields exactly the same tree as
parsing `"R1"`, namely the bare resistor element. -/
theorem c3_no_single_wrapper :
    (∀ (fuel : Nat) (s rest : List Char) (t : circuit.SubCircuit),
      circuit.sub_circuit fuel s = .ok rest t → t.noSingle = true) ∧
    circuit.parse_sub_circuit ['(', 'R', '1', ')'] =
      circuit.parse_sub_circuit ['R', '1'] ∧
    circuit.parse_sub_circuit ['(', 'R', '1', ')'] =
      .ok [] (.Element (.R ['1'])) :=
  ⟨fun fuel => (circuit.parse_noSingle fuel).1, rfl, rfl⟩

/-- C3 witness: the invariant applied to the concrete parse of
`"(R1+R2)"`. -/
theorem c3_no_single_wrapper_witness :
    circuit.sub_circuit 24 ['(', 'R', '1', '+', 'R', '2', ')'] =
      .ok [] (.Group (.Series (.Element (.R ['1'])) (.Element (.R ['2'])))) ∧
    circuit.SubCircuit.noSingle
      (.Group (.Series (.Element (.R ['1'])) (.Element (.R ['2'])))) =
      true :=
  ⟨rfl,
   c3_no_single_wrapper.1 24 ['(', 'R', '1', '+', 'R', '2', ')'] []
     (.Group (.Series (.Element (.R ['1'])) (.Element (.R ['2'])))) rfl⟩

namespace circuit

/-- One-layer unfolding of `sub_circuit`. -/
theorem sub_circuit_succ (n : Nat) (s : List Char) :
    sub_circuit (n + 1) s =
      palt
        (pmap (pdelimited ['('] (fun s2 => sub_circuit_series n s2) [')'])
          SubCircuitGroup.into)
        (pmap element SubCircuit.Element) s := rfl

/-- One-layer unfolding of `sub_circuit_series`. -/
theorem sub_circuit_series_succ (n : Nat) (s : List Char) :
    sub_circuit_series (n + 1) s =
      palt
        (pmap (psepPair (fun s2 => sub_circuit_parallel n s2) ['+']
            (fun s2 => sub_circuit_series n s2))
          (fun lr => SubCircuitGroup.Series lr.1.into lr.2.into))
        (fun s2 => sub_circuit_parallel n s2) s := rfl

/-- One-layer unfolding of `sub_circuit_parallel`. -/
theorem sub_circuit_parallel_succ (n : Nat) (s : List Char) :
    sub_circuit_parallel (n + 1) s =
      palt
        (pmap (psepPair (fun s2 => sub_circuit n s2) ['|', '|']
            (fun s2 => sub_circuit_parallel n s2))
          (fun lr => SubCircuitGroup.Parallel lr.1 lr.2.into))
        (pmap (fun s2 => sub_circuit n s2) SubCircuitGroup.Single) s := rfl

/-- The element parser consumes exactly the text of a well-formed
element when the remainder does not continue alphanumerically. -/
theorem element_encode (e : Element) (rest : List Char)
    (hv : ValidElement e) (hrest : headAlnum rest = false) :
    element (elementText e ++ rest) = .ok rest e := by
  cases e with
  | R id =>
    obtain ⟨hne, hid⟩ := hv
    simp [element, elementText, palt, pmap, ppreceded, ptag_cons_self,
      alphanumeric1_split id rest hne hid hrest]
  | C id =>
    obtain ⟨hne, hid⟩ := hv
    simp [element, elementText, palt, pmap, ppreceded, ptag_cons_self,
      ptag_ne_head (show ¬('R':Char) = 'C' by decide),
      alphanumeric1_split id rest hne hid hrest]
  | V id =>
    obtain ⟨hne, hid⟩ := hv
    simp [element, elementText, palt, pmap, ppreceded, ptag_cons_self,
      ptag_ne_head (show ¬('R':Char) = 'V' by decide),
      ptag_ne_head (show ¬('C':Char) = 'V' by decide),
      alphanumeric1_split id rest hne hid hrest]
  | L id =>
    obtain ⟨hne, hid⟩ := hv
    simp [element, elementText, palt, pmap, ppreceded, ptag_cons_self,
      ptag_ne_head (show ¬('R':Char) = 'L' by decide),
      ptag_ne_head (show ¬('C':Char) = 'L' by decide),
      ptag_ne_head (show ¬('V':Char) = 'L' by decide),
      alphanumeric1_split id rest hne hid hrest]
  | Z id =>
    obtain ⟨hne, hid⟩ := hv
    simp [element, elementText, palt, pmap, ppreceded, ptag_cons_self,
      ptag_ne_head (show ¬('R':Char) = 'Z' by decide),
      ptag_ne_head (show ¬('C':Char) = 'Z' by decide),
      ptag_ne_head (show ¬('V':Char) = 'Z' by decide),
      ptag_ne_head (show ¬('L':Char) = 'Z' by decide),
      alphanumeric1_split id rest hne hid hrest]
  | I id =>
    obtain ⟨hne, hid⟩ := hv
    simp [element, elementText, palt, pmap, ppreceded, ptag_cons_self,
      ptag_ne_head (show ¬('R':Char) = 'I' by decide),
      ptag_ne_head (show ¬('C':Char) = 'I' by decide),
      ptag_ne_head (show ¬('V':Char) = 'I' by decide),
      ptag_ne_head (show ¬('L':Char) = 'I' by decide),
      ptag_ne_head (show ¬('Z':Char) = 'I' by decide),
      alphanumeric1_split id rest hne hid hrest]
  | Open =>
    simp [element, elementText, palt, pmap, ppreceded, ptag_cons_self,
      ptag_ne_head (show ¬('R':Char) = 'O' by decide),
      ptag_ne_head (show ¬('C':Char) = 'O' by decide),
      ptag_ne_head (show ¬('V':Char) = 'O' by decide),
      ptag_ne_head (show ¬('L':Char) = 'O' by decide),
      ptag_ne_head (show ¬('Z':Char) = 'O' by decide),
      ptag_ne_head (show ¬('I':Char) = 'O' by decide)]

/-- An element's text never starts with an opening parenthesis. -/
theorem ptag_paren_elementText (e : Element) (rest : List Char) :
    ptag ['('] (elementText e ++ rest) = .error := by
  cases e <;> simp only [elementText, List.cons_append] <;>
    exact ptag_ne_head (by decide) _ _

/-- The sub-circuit parser on an element's text: the group branch
backtracks and the element branch consumes the element. -/
theorem sub_circuit_elem (fuel : Nat) (e : Element) (rest : List Char)
    (hv : ValidElement e) (hrest : headAlnum rest = false) :
    sub_circuit (fuel + 1) (elementText e ++ rest) = .ok rest (.Element e) := by
  rw [sub_circuit_succ]
  simp only [palt, pmap, pdelimited, ptag_paren_elementText e rest,
    element_encode e rest hv hrest]

end circuit

namespace circuit

/-- A two-character `tag` consumes its two characters. -/
theorem ptag_pair_self (c d : Char) (l : List Char) :
    ptag [c, d] (c :: d :: l) = .ok l () := by
  simp [ptag, List.isPrefixOf]

/-- A lone operand not followed by a parallel bar parses as a pending
`Single` at the parallel level. -/
theorem parallel_single (fuel : Nat) (e : Element) (rest : List Char)
    (hv : ValidElement e) (hrest : headAlnum rest = false)
    (hnb : ptag ['|', '|'] rest = .error) :
    sub_circuit_parallel (fuel + 2) (elementText e ++ rest) =
      .ok rest (.Single (.Element e)) := by
  have h1 : sub_circuit (fuel + 1) (elementText e ++ rest) =
      .ok rest (.Element e) := sub_circuit_elem fuel e rest hv hrest
  change sub_circuit_parallel ((fuel + 1) + 1) _ = _
  rw [sub_circuit_parallel_succ]
  simp only [palt, pmap, psepPair, h1, hnb]

/-- A lone operand not followed by an operator parses as a pending
`Single` at the series level. -/
theorem series_single (fuel : Nat) (e : Element) (rest : List Char)
    (hv : ValidElement e) (hrest : headAlnum rest = false)
    (hnb : ptag ['|', '|'] rest = .error)
    (hnp : ptag ['+'] rest = .error) :
    sub_circuit_series (fuel + 3) (elementText e ++ rest) =
      .ok rest (.Single (.Element e)) := by
  have h1 : sub_circuit_parallel (fuel + 2) (elementText e ++ rest) =
      .ok rest (.Single (.Element e)) :=
    parallel_single fuel e rest hv hrest hnb
  change sub_circuit_series ((fuel + 2) + 1) _ = _
  rw [sub_circuit_series_succ]
  simp only [palt, pmap, psepPair, h1, hnp]

/-- A two-operand series chain parses to one `Series` node. -/
theorem series_chain2 (fuel : Nat) (b c : Element) (tail : List Char)
    (hvb : ValidElement b) (hvc : ValidElement c)
    (ht1 : headAlnum tail = false) (ht2 : ptag ['|', '|'] tail = .error)
    (ht3 : ptag ['+'] tail = .error) :
    sub_circuit_series (fuel + 4)
        (elementText b ++ '+' :: (elementText c ++ tail)) =
      .ok tail (.Series (.Element b) (.Element c)) := by
  have h1 : sub_circuit_parallel (fuel + 3)
      (elementText b ++ '+' :: (elementText c ++ tail)) =
      .ok ('+' :: (elementText c ++ tail)) (.Single (.Element b)) :=
    parallel_single (fuel + 1) b _ hvb rfl (ptag_ne_head (by decide) _ _)
  have h2 : sub_circuit_series (fuel + 3) (elementText c ++ tail) =
      .ok tail (.Single (.Element c)) :=
    series_single fuel c tail hvc ht1 ht2 ht3
  change sub_circuit_series ((fuel + 3) + 1) _ = _
  rw [sub_circuit_series_succ]
  simp only [palt, pmap, psepPair, h1, h2, ptag_cons_self,
    SubCircuitGroup.into]

/-- A three-operand series chain parses right-nested:
`a+b+c` yields `Series(a, Series(b, c))`. -/
theorem series_chain3 (fuel : Nat) (a b c : Element) (tail : List Char)
    (hva : ValidElement a) (hvb : ValidElement b) (hvc : ValidElement c)
    (ht1 : headAlnum tail = false) (ht2 : ptag ['|', '|'] tail = .error)
    (ht3 : ptag ['+'] tail = .error) :
    sub_circuit_series (fuel + 5)
        (elementText a ++ '+' ::
          (elementText b ++ '+' :: (elementText c ++ tail))) =
      .ok tail
        (.Series (.Element a) (.Group (.Series (.Element b) (.Element c)))) := by
  have h1 : sub_circuit_parallel (fuel + 4)
      (elementText a ++ '+' ::
        (elementText b ++ '+' :: (elementText c ++ tail))) =
      .ok ('+' :: (elementText b ++ '+' :: (elementText c ++ tail)))
        (.Single (.Element a)) :=
    parallel_single (fuel + 2) a _ hva rfl (ptag_ne_head (by decide) _ _)
  have h2 : sub_circuit_series (fuel + 4)
      (elementText b ++ '+' :: (elementText c ++ tail)) =
      .ok tail (.Series (.Element b) (.Element c)) :=
    series_chain2 fuel b c tail hvb hvc ht1 ht2 ht3
  change sub_circuit_series ((fuel + 4) + 1) _ = _
  rw [sub_circuit_series_succ]
  simp only [palt, pmap, psepPair, h1, h2, ptag_cons_self,
    SubCircuitGroup.into]

/-- A parenthesized three-operand series chain parses right-nested. -/
theorem sub_circuit_series3 (fuel : Nat) (a b c : Element)
    (tl : List Char) (hva : ValidElement a) (hvb : ValidElement b)
    (hvc : ValidElement c) :
    sub_circuit (fuel + 6)
        ('(' :: (elementText a ++ '+' ::
          (elementText b ++ '+' :: (elementText c ++ ')' :: tl)))) =
      .ok tl
        (.Group (.Series (.Element a)
          (.Group (.Series (.Element b) (.Element c))))) := by
  have h1 : sub_circuit_series (fuel + 5)
      (elementText a ++ '+' ::
        (elementText b ++ '+' :: (elementText c ++ ')' :: tl))) =
      .ok (')' :: tl)
        (.Series (.Element a) (.Group (.Series (.Element b) (.Element c)))) :=
    series_chain3 fuel a b c (')' :: tl) hva hvb hvc rfl
      (ptag_ne_head (by decide) _ _) (ptag_ne_head (by decide) _ _)
  change sub_circuit ((fuel + 5) + 1) _ = _
  rw [sub_circuit_succ]
  simp only [palt, pmap, pdelimited, ptag_cons_self, h1,
    SubCircuitGroup.into]

end circuit

namespace circuit

/-- A two-operand parallel chain parses to one `Parallel` node. -/
theorem parallel_chain2 (fuel : Nat) (b c : Element) (tail : List Char)
    (hvb : ValidElement b) (hvc : ValidElement c)
    (ht1 : headAlnum tail = false)
    (ht2 : ptag ['|', '|'] tail = .error) :
    sub_circuit_parallel (fuel + 3)
        (elementText b ++ '|' :: '|' :: (elementText c ++ tail)) =
      .ok tail (.Parallel (.Element b) (.Element c)) := by
  have h1 : sub_circuit (fuel + 2)
      (elementText b ++ '|' :: '|' :: (elementText c ++ tail)) =
      .ok ('|' :: '|' :: (elementText c ++ tail)) (.Element b) :=
    sub_circuit_elem (fuel + 1) b _ hvb rfl
  have h2 : sub_circuit_parallel (fuel + 2) (elementText c ++ tail) =
      .ok tail (.Single (.Element c)) :=
    parallel_single fuel c tail hvc ht1 ht2
  change sub_circuit_parallel ((fuel + 2) + 1) _ = _
  rw [sub_circuit_parallel_succ]
  simp only [palt, pmap, psepPair, h1, h2, ptag_pair_self,
    SubCircuitGroup.into]

/-- A three-operand parallel chain parses right-nested:
`a||b||c` yields `Parallel(a, Parallel(b, c))`. -/
theorem parallel_chain3 (fuel : Nat) (a b c : Element) (tail : List Char)
    (hva : ValidElement a) (hvb : ValidElement b) (hvc : ValidElement c)
    (ht1 : headAlnum tail = false)
    (ht2 : ptag ['|', '|'] tail = .error) :
    sub_circuit_parallel (fuel + 4)
        (elementText a ++ '|' :: '|' ::
          (elementText b ++ '|' :: '|' :: (elementText c ++ tail))) =
      .ok tail
        (.Parallel (.Element a)
          (.Group (.Parallel (.Element b) (.Element c)))) := by
  have h1 : sub_circuit (fuel + 3)
      (elementText a ++ '|' :: '|' ::
        (elementText b ++ '|' :: '|' :: (elementText c ++ tail))) =
      .ok ('|' :: '|' :: (elementText b ++ '|' :: '|' ::
          (elementText c ++ tail)))
        (.Element a) :=
    sub_circuit_elem (fuel + 2) a _ hva rfl
  have h2 : sub_circuit_parallel (fuel + 3)
      (elementText b ++ '|' :: '|' :: (elementText c ++ tail)) =
      .ok tail (.Parallel (.Element b) (.Element c)) :=
    parallel_chain2 fuel b c tail hvb hvc ht1 ht2
  change sub_circuit_parallel ((fuel + 3) + 1) _ = _
  rw [sub_circuit_parallel_succ]
  simp only [palt, pmap, psepPair, h1, h2, ptag_pair_self,
    SubCircuitGroup.into]

/-- A three-operand parallel chain at the series level: the `+` branch
backtracks and the parallel result is returned unchanged. -/
theorem series_parallel3 (fuel : Nat) (a b c : Element) (tail : List Char)
    (hva : ValidElement a) (hvb : ValidElement b) (hvc : ValidElement c)
    (ht1 : headAlnum tail = false) (ht2 : ptag ['|', '|'] tail = .error)
    (ht3 : ptag ['+'] tail = .error) :
    sub_circuit_series (fuel + 5)
        (elementText a ++ '|' :: '|' ::
          (elementText b ++ '|' :: '|' :: (elementText c ++ tail))) =
      .ok tail
        (.Parallel (.Element a)
          (.Group (.Parallel (.Element b) (.Element c)))) := by
  have h1 : sub_circuit_parallel (fuel + 4)
      (elementText a ++ '|' :: '|' ::
        (elementText b ++ '|' :: '|' :: (elementText c ++ tail))) =
      .ok tail
        (.Parallel (.Element a)
          (.Group (.Parallel (.Element b) (.Element c)))) :=
    parallel_chain3 fuel a b c tail hva hvb hvc ht1 ht2
  change sub_circuit_series ((fuel + 4) + 1) _ = _
  rw [sub_circuit_series_succ]
  simp only [palt, pmap, psepPair, h1, ht3]

/-- A parenthesized three-operand parallel chain parses right-nested. -/
theorem sub_circuit_parallel3 (fuel : Nat) (a b c : Element)
    (tl : List Char) (hva : ValidElement a) (hvb : ValidElement b)
    (hvc : ValidElement c) :
    sub_circuit (fuel + 6)
        ('(' :: (elementText a ++ '|' :: '|' ::
          (elementText b ++ '|' :: '|' :: (elementText c ++ ')' :: tl)))) =
      .ok tl
        (.Group (.Parallel (.Element a)
          (.Group (.Parallel (.Element b) (.Element c))))) := by
  have h1 : sub_circuit_series (fuel + 5)
      (elementText a ++ '|' :: '|' ::
        (elementText b ++ '|' :: '|' :: (elementText c ++ ')' :: tl))) =
      .ok (')' :: tl)
        (.Parallel (.Element a)
          (.Group (.Parallel (.Element b) (.Element c)))) :=
    series_parallel3 fuel a b c (')' :: tl) hva hvb hvc rfl
      (ptag_ne_head (by decide) _ _) (ptag_ne_head (by decide) _ _)
  change sub_circuit ((fuel + 5) + 1) _ = _
  rw [sub_circuit_succ]
  simp only [palt, pmap, pdelimited, ptag_cons_self, h1,
    SubCircuitGroup.into]

end circuit

/-- C2.  Operator precedence and associativity: `"(R1+R2||R3)"` parses as
`Series(R1, Parallel(R2, R3))` (so `||` binds tighter than `+`), and for
all well-formed operands `a`, `b`, `c` the chains `(a+b+c)` and
`(a||b||c)` parse to the right-nested trees `Series(a, Series(b, c))` and
`Parallel(a, Parallel(b, c))`. -/
theorem c2_precedence_associativity :
    circuit.parse_sub_circuit
        ['(', 'R', '1', '+', 'R', '2', '|', '|', 'R', '3', ')'] =
      .ok []
        (.Group (.Series (.Element (.R ['1']))
          (.Group (.Parallel (.Element (.R ['2']))
            (.Element (.R ['3'])))))) ∧
    (∀ a b c : circuit.Element, circuit.ValidElement a →
      circuit.ValidElement b → circuit.ValidElement c →
      circuit.parse_sub_circuit
          ('(' :: (circuit.elementText a ++ '+' ::
            (circuit.elementText b ++ '+' ::
              (circuit.elementText c ++ [')'])))) =
        .ok []
          (.Group (.Series (.Element a)
            (.Group (.Series (.Element b) (.Element c)))))) ∧
    (∀ a b c : circuit.Element, circuit.ValidElement a →
      circuit.ValidElement b → circuit.ValidElement c →
      circuit.parse_sub_circuit
          ('(' :: (circuit.elementText a ++ '|' :: '|' ::
            (circuit.elementText b ++ '|' :: '|' ::
              (circuit.elementText c ++ [')'])))) =
        .ok []
          (.Group (.Parallel (.Element a)
            (.Group (.Parallel (.Element b) (.Element c)))))) := by
  refine ⟨rfl, fun a b c hva hvb hvc => ?_, fun a b c hva hvb hvc => ?_⟩
  · exact circuit.sub_circuit_series3
      (3 * (circuit.elementText a ++ '+' ::
        (circuit.elementText b ++ '+' ::
          (circuit.elementText c ++ [')']))).length)
      a b c [] hva hvb hvc
  · exact circuit.sub_circuit_parallel3
      (3 * (circuit.elementText a ++ '|' :: '|' ::
        (circuit.elementText b ++ '|' :: '|' ::
          (circuit.elementText c ++ [')']))).length)
      a b c [] hva hvb hvc

/-- C2 witness: the right-nesting theorems applied to the operands
`R1`, `C2`, `L3`. -/
theorem c2_precedence_associativity_witness :
    circuit.parse_sub_circuit
        ['(', 'R', '1', '+', 'C', '2', '+', 'L', '3', ')'] =
      .ok []
        (.Group (.Series (.Element (.R ['1']))
          (.Group (.Series (.Element (.C ['2'])) (.Element (.L ['3'])))))) ∧
    circuit.parse_sub_circuit
        ['(', 'R', '1', '|', '|', 'C', '2', '|', '|', 'L', '3', ')'] =
      .ok []
        (.Group (.Parallel (.Element (.R ['1']))
          (.Group (.Parallel (.Element (.C ['2']))
            (.Element (.L ['3'])))))) :=
  ⟨c2_precedence_associativity.2.1 (.R ['1']) (.C ['2']) (.L ['3'])
    ⟨by decide, by decide⟩ ⟨by decide, by decide⟩ ⟨by decide, by decide⟩,
   c2_precedence_associativity.2.2 (.R ['1']) (.C ['2']) (.L ['3'])
    ⟨by decide, by decide⟩ ⟨by decide, by decide⟩ ⟨by decide, by decide⟩⟩
